import Mathlib

/-!
Verification of the Automatic Persisted Queries (APQ) plugin:
a shallow embedding of `plugin.ts` (negotiation state machine, descriptor
extraction, option resolution) and `store.ts` (bounded LRU + TTL store),
together with theorems settling the specification claims.

Conventions of the embedding:
- JavaScript `undefined`/absent values are `Option.none`.
- JavaScript truthiness of strings is explicit (`""` is falsy).
- The mutable store is threaded explicitly; time is an explicit `Nat`
  parameter (milliseconds), since the store's TTL logic reads a clock.
- Thrown `PersistedQueryError`s become the `Except.error` side of results.
-/

namespace Envelop.APQ

/-- The hash algorithms recognised by the plugin
(`const ALGORITHMS = ['sha256', 'sha512', 'sha1', 'md5']`). -/
inductive HashAlgorithm where
  | sha256
  | sha512
  | sha1
  | md5
deriving DecidableEq, Repr

/-- The string name of an algorithm, used in the `HASH_MISMATCH` message and
in the wire field name `{algorithm}Hash`. -/
def algorithmName : HashAlgorithm → String
  | .sha256 => "sha256"
  | .sha512 => "sha512"
  | .sha1 => "sha1"
  | .md5 => "md5"

/-- Opaque parsed GraphQL document (`DocumentNode` from the `graphql`
package); the plugin never inspects its contents, so an identifier
suffices for the embedding. -/
structure DocumentNode where
  id : Nat
deriving DecidableEq, Repr

/-- A stored document: the store accepts either raw SDL text or a
pre-parsed `DocumentNode` (`string | DocumentNode` in `store.ts`). -/
inductive StoredDocument where
  | text (s : String)
  | node (d : DocumentNode)
deriving DecidableEq, Repr

/-- A thrown `PersistedQueryError`: human-readable message plus the
machine-readable `code` extension. -/
structure PQError where
  message : String
  code : String
deriving DecidableEq, Repr

def errorNotFound : PQError :=
  { message := "PersistedQueryNotFound", code := "PERSISTED_QUERY_NOT_FOUND" }

def errorHashMissing : PQError :=
  { message := "PersistedQueryHashMissing", code := "PERSISTED_QUERY_HASH_MISSING" }

def errorInvalidVersion : PQError :=
  { message := "Unsupported persisted query version", code := "PERSISTED_QUERY_INVALID_VERSION" }

def errorHashMismatch (algo : HashAlgorithm) : PQError :=
  { message := "Provided " ++ algorithmName algo ++ " hash does not match query",
    code := "PERSISTED_QUERY_HASH_MISMATCH" }

def errorInternal : PQError :=
  { message := "GraphQL operations must contain a non-empty `query` or a `persistedQuery` extension.",
    code := "INTERNAL_SERVER_ERROR" }

/-- Length in hex characters of the digest of each algorithm. -/
def hexDigestLength : HashAlgorithm → Nat
  | .sha256 => 64
  | .sha512 => 128
  | .sha1 => 40
  | .md5 => 32

/-- Lower-case hex character for a value below 16. -/
def hexChar (n : Nat) : Char :=
  if n < 10 then Char.ofNat (48 + n) else Char.ofNat (87 + n)

/-- Fixed-width lower-case hex rendering of `v` (most significant first). -/
def toHexFixed : Nat → Nat → String
  | 0, _ => ""
  | w + 1, v => toHexFixed w (v / 16) ++ String.singleton (hexChar (v % 16))

/-- UTF-8 byte encoding of a character (as `Nat`s below 256). -/
def utf8Bytes (c : Char) : List Nat :=
  let n := c.toNat
  if n < 128 then [n]
  else if n < 2048 then [192 + n / 64, 128 + n % 64]
  else if n < 65536 then [224 + n / 4096, 128 + n / 64 % 64, 128 + n % 64]
  else [240 + n / 262144, 128 + n / 4096 % 64, 128 + n / 64 % 64, 128 + n % 64]

/-- Modelled from the spec: the `HashComputer` contract of §4.1 — the source
`generateHash` delegates to Node's `crypto.createHash(algo).update(query,
'utf8').digest('hex')`, whose implementation is not part of this repository.
Per the contract it is a deterministic pure function of the UTF-8 byte
encoding of `query`, producing a hex digest of the algorithm's fixed length.
This model folds the UTF-8 bytes into an accumulator modulo
`16 ^ hexDigestLength algo` and renders it as that many hex characters. -/
def generateHash (query : String) (algo : HashAlgorithm) : String :=
  let w := hexDigestLength algo
  let m := 16 ^ w
  let acc := query.data.foldl (fun a c => (utf8Bytes c).foldl (fun a b => (a * 257 + b + 1) % m) a) 5381
  toHexFixed w (acc % m)

/-!
## The bounded LRU + TTL store

`store.ts` wraps the external `tiny-lru` package, whose implementation is
not part of this repository.  Modelled from the spec: §4.2 `DocumentStore`
contract — entries carry insertion and last-access timestamps; `get`
returns a miss both for absent and for expired keys, removing expired
entries encountered (lazy eviction) and refreshing recency on a hit;
`put` inserts or overwrites, refreshes recency, and evicts the single
least-recently-used entry when the insertion would push the count over
capacity.  The `entries` list is the recency order, most recently used
first; the least-recently-used entry is the last element.
-/

/-- One cache entry (spec §3 `CacheEntry`). -/
structure CacheEntry where
  key : String
  value : StoredDocument
  insertedAt : Nat
  lastAccessedAt : Nat
deriving DecidableEq, Repr

/-- The bounded LRU + TTL cache backing the default store.
`entries` is ordered most-recently-used first. -/
structure LRUCache where
  maxSize : Nat
  ttl : Nat
  entries : List CacheEntry
deriving DecidableEq, Repr

def DEFAULT_MAX : Nat := 1000
def DEFAULT_TTL : Nat := 3600000

/-- Definition `createLRUStore(maxSize?, ttl?)` from `store.ts`: defaults applied with
`??`, starting from an empty cache. -/
def createLRUStore (maxSize ttl : Option Nat) : LRUCache :=
  { maxSize := maxSize.getD DEFAULT_MAX, ttl := ttl.getD DEFAULT_TTL, entries := [] }

/-- The keys currently stored, in recency order. -/
def LRUCache.keys (c : LRUCache) : List String :=
  c.entries.map (fun e => e.key)

/-- Modelled from the spec: `get(hash) -> Document | Miss` (§4.2) — miss on
absent or expired key, removing an expired entry as a side effect; on a hit
the entry's recency is refreshed (moved to the front, `lastAccessedAt`
updated).  An entry is expired when strictly more than `ttl` has elapsed
since insertion (§8: queried at `t0 + ttl + ε` returns a miss). -/
def LRUCache.get (c : LRUCache) (now : Nat) (h : String) : Option StoredDocument × LRUCache :=
  match c.entries.find? (fun e => e.key == h) with
  | none => (none, c)
  | some e =>
    if e.insertedAt + c.ttl < now then
      (none, { c with entries := c.entries.filter (fun x => x.key != h) })
    else
      (some e.value,
        { c with entries := { e with lastAccessedAt := now } :: c.entries.filter (fun x => x.key != h) })

/-- Modelled from the spec: `put(hash, document)` (§4.2) — insert or
overwrite, refresh recency; if the insertion pushes the count over
capacity, evict the least-recently-used entry (the last of the recency
list). -/
def LRUCache.put (c : LRUCache) (now : Nat) (h : String) (d : StoredDocument) : LRUCache :=
  let rest := c.entries.filter (fun x => x.key != h)
  let fresh : CacheEntry := { key := h, value := d, insertedAt := now, lastAccessedAt := now }
  if rest.length + 1 > c.maxSize then
    { c with entries := (fresh :: rest).dropLast }
  else
    { c with entries := fresh :: rest }

/-- An observable store operation, with the time at which it runs. -/
inductive StoreOp where
  | get (now : Nat) (h : String)
  | put (now : Nat) (h : String) (d : StoredDocument)
deriving DecidableEq, Repr

def runOp (c : LRUCache) : StoreOp → LRUCache
  | .get now h => (c.get now h).2
  | .put now h d => c.put now h d

def runOps (c : LRUCache) (ops : List StoreOp) : LRUCache :=
  ops.foldl runOp c

/-- Well-formedness of a cache: keys are distinct and the entry count is
within capacity. -/
def LRUCache.WF (c : LRUCache) : Prop :=
  c.keys.Nodup ∧ c.entries.length ≤ c.maxSize

/-!
## Descriptor extraction and negotiation (`plugin.ts`)
-/

/-- The descriptor handed to the negotiation (`interface PersistedQuery`).
At runtime `version` may fail the `typeof ... === 'number'` test (a custom
resolver may supply `undefined`, and the default extractor passes through a
non-number wire value), so it is an `Option`; `hash` is `pq[key]`, which may
be `undefined`. -/
structure PersistedQuery where
  version : Option Nat
  hash : Option String
deriving DecidableEq, Repr

/-- The wire value of `extensions.persistedQuery.version`: absent (or
nullish), a number, or some other (non-number, non-nullish) value. -/
inductive WireVersion where
  | absent
  | num (n : Nat)
  | nonNumber
deriving DecidableEq, Repr

/-- The wire `persistedQuery` extension object: a `version` field and the
`{algorithm}Hash` fields (`pq[key]` for `key = algorithm + "Hash"`). -/
structure PersistedQueryExtension where
  version : WireVersion
  hashField : HashAlgorithm → Option String

/-- The part of the request context the default extractor navigates to:
`(ctx.request ?? ctx.req)?.body?.extensions?.persistedQuery`, collapsed to
whether that extension object is present. -/
structure RequestContext where
  persistedQueryExt : Option PersistedQueryExtension

/-- Whether the wire `version` is a number (`typeof pq.version === 'number'`). -/
def WireVersion.isNumber : WireVersion → Bool
  | .num _ => true
  | _ => false

/-- Function `getPersistedQueryFromContext` from `plugin.ts`: if the extension object
is present but `version` is not a number and the `{algorithm}Hash` field is
`undefined`, throw `NOT_FOUND`; otherwise return
`{ hash: pq[key], version: pq.version ?? 0 }`.  An absent extension yields
no descriptor without error. -/
def getPersistedQueryFromContext (ctx : RequestContext) (algorithm : HashAlgorithm) :
    Except PQError (Option PersistedQuery) :=
  match ctx.persistedQueryExt with
  | some pq =>
    if !pq.version.isNumber && (pq.hashField algorithm).isNone then
      .error errorNotFound
    else
      let version : Option Nat :=
        match pq.version with
        | .absent => some 0
        | .num n => some n
        | .nonNumber => none
      .ok (some { hash := pq.hashField algorithm, version := version })
  | none => .ok none

def DEFAULT_PROTOCOL_VERSION : Nat := 1
def DEFAULT_HASH_ALGORITHM : HashAlgorithm := .sha256

/-- The options object accepted by `useAutomaticPersistedQueries`; `none`
stands for an omitted (or explicitly `undefined`) option. -/
structure UseAPQOptions where
  hashAlgorithm : Option HashAlgorithm := none
  version : Option Nat := none
  resolvePersistedQuery : Option (RequestContext → Option PersistedQuery) := none
  writeToContext : Option Bool := none

/-- Option resolution `version: expectedVersion = DEFAULT_PROTOCOL_VERSION` — a destructuring
default, applied whenever the option is `undefined`. -/
def resolveExpectedVersion (o : UseAPQOptions) : Nat :=
  o.version.getD DEFAULT_PROTOCOL_VERSION

/-- Option resolution `hashAlgorithm = DEFAULT_HASH_ALGORITHM` destructuring default. -/
def resolveHashAlgorithm (o : UseAPQOptions) : HashAlgorithm :=
  o.hashAlgorithm.getD DEFAULT_HASH_ALGORITHM

/-- Source line `const writeToContext = options?.writeToContext !== false`. -/
def resolveWriteToContext (o : UseAPQOptions) : Bool :=
  o.writeToContext != some false

/-- The `source` parameter of `onParse`: either a string or a `Source`
object with a `body` (`typeof source === 'string' ? source : source.body`). -/
inductive Source where
  | str (s : String)
  | obj (body : Option String)
deriving DecidableEq, Repr

/-- Source line `const query = typeof source === 'string' ? source : source.body`. -/
def sourceQuery : Source → Option String
  | .str s => some s
  | .obj b => b

/-- The version check of line 124:
`typeof version === 'number' && version !== expectedVersion`. -/
def versionMismatch (version : Option Nat) (expectedVersion : Nat) : Bool :=
  match version with
  | some v => v != expectedVersion
  | none => false

/-- JavaScript truthiness of a possibly-undefined string
(`!queryHash` is true for `undefined` and `""`). -/
def truthyString : Option String → Bool
  | none => false
  | some s => s != ""

/-- JavaScript truthiness of the value returned by `store.get`
(`!cachedQuery`): `null` and the empty string are falsy, a `DocumentNode`
object is truthy. -/
def truthyDoc : Option StoredDocument → Bool
  | none => false
  | some (.text t) => t != ""
  | some (.node _) => true

/-- Source line `typeof cachedQuery === 'string' ? parseFn(cachedQuery) : cachedQuery`. -/
def resolveCached (parseFn : String → DocumentNode) : StoredDocument → DocumentNode
  | .text t => parseFn t
  | .node d => d

/-- The observable effects of a completed (non-throwing) `onParse` call:
the document passed to `setParsedDocument` (if any), the value attached by
`extendContext` under the plugin's reserved symbol key (if any), and the
`queryHash` captured by the returned after-parse callback (if a callback
was returned at all). -/
structure ParseSuccess where
  setDoc : Option DocumentNode
  ctxWrite : Option Source
  afterFn : Option (Option String)
deriving DecidableEq, Repr

instance {ε α : Type} [DecidableEq ε] [DecidableEq α] : DecidableEq (Except ε α) := fun a b =>
  match a, b with
  | .error e, .error f =>
    if h : e = f then .isTrue (by rw [h]) else .isFalse (fun hc => h (Except.error.injEq .. ▸ hc))
  | .error _, .ok _ => .isFalse (fun hc => Except.noConfusion hc)
  | .ok _, .error _ => .isFalse (fun hc => Except.noConfusion hc)
  | .ok x, .ok y =>
    if h : x = y then .isTrue (by rw [h]) else .isFalse (fun hc => h (Except.ok.injEq .. ▸ hc))

/-- Result of a negotiation: the thrown error or the observable effects,
together with the state of the (shared, mutable) store afterwards. -/
structure NegotiationResult where
  result : Except PQError ParseSuccess
  store : LRUCache
deriving DecidableEq, Repr

/-- The body of `onParse` (lines 108–178 of `plugin.ts`) given the already
extracted descriptor.  Mirrors the source branch for branch. -/
def negotiate (expectedVersion : Nat) (hashAlgorithm : HashAlgorithm) (writeToContext : Bool)
    (parseFn : String → DocumentNode) (store : LRUCache) (now : Nat)
    (persistedQuery : Option PersistedQuery) (source : Source) : NegotiationResult :=
  let query := sourceQuery source
  match persistedQuery with
  | some pq =>
    if versionMismatch pq.version expectedVersion then
      { result := .error errorInvalidVersion, store := store }
    else
      let queryHash := pq.hash
      match query with
      | none =>
        -- `query === undefined`: the Lookup branch
        if !truthyString queryHash then
          { result := .error errorHashMissing, store := store }
        else
          match queryHash with
          | some qh =>
            let (cachedQuery, store1) := store.get now qh
            if !truthyDoc cachedQuery then
              { result := .error errorNotFound, store := store1 }
            else
              match cachedQuery with
              | some cq =>
                { result := .ok
                    { setDoc := some (resolveCached parseFn cq),
                      ctxWrite := if writeToContext then some source else none,
                      afterFn := none },
                  store := store1 }
              | none =>
                { result := .error errorNotFound, store := store1 }
          | none =>
            -- unreachable: `truthyString none = false` was handled above
            { result := .error errorHashMissing, store := store }
      | some q =>
        -- the Verify branch
        let computedQueryHash := generateHash q hashAlgorithm
        if queryHash != some computedQueryHash then
          { result := .error (errorHashMismatch hashAlgorithm), store := store }
        else
          { result := .ok { setDoc := none, ctxWrite := none, afterFn := some queryHash },
            store := store }
  | none =>
    match query with
    | some q =>
      if q != "" then
        -- `else if (query)`: ComputeHashOnly
        { result := .ok
            { setDoc := none, ctxWrite := none,
              afterFn := some (some (generateHash q hashAlgorithm)) },
          store := store }
      else
        { result := .error errorInternal, store := store }
    | none =>
      { result := .error errorInternal, store := store }

/-- Full `onParse`: resolve options, extract the descriptor with the
configured resolver (`_resolvePersistedQuery ?? getPersistedQueryFromContext`),
then negotiate. -/
def onParse (options : UseAPQOptions) (parseFn : String → DocumentNode) (store : LRUCache)
    (now : Nat) (ctx : RequestContext) (source : Source) : NegotiationResult :=
  let hashAlgorithm := resolveHashAlgorithm options
  let pqE : Except PQError (Option PersistedQuery) :=
    match options.resolvePersistedQuery with
    | some f => .ok (f ctx)
    | none => getPersistedQueryFromContext ctx hashAlgorithm
  match pqE with
  | .error e => { result := .error e, store := store }
  | .ok persistedQuery =>
    negotiate (resolveExpectedVersion options) hashAlgorithm (resolveWriteToContext options)
      parseFn store now persistedQuery source

/-- The result handed to the after-parse callback: a parsed document, an
`Error` instance, or a nullish value. -/
inductive ExecResult where
  | ok (d : DocumentNode)
  | errorResult
  | nullish
deriving DecidableEq, Repr

/-- The callback returned by `onParse` (lines 172–178):
`if (!result || result instanceof Error) return; if (queryHash) store.put(queryHash, result);`. -/
def runAfterFn (queryHash : Option String) (now : Nat) (store : LRUCache) :
    ExecResult → LRUCache
  | .ok d =>
    match queryHash with
    | some qh => if qh != "" then store.put now qh (.node d) else store
    | none => store
  | .errorResult => store
  | .nullish => store

/-!
## Helper lemmas: the hash digest
-/

theorem toHexFixed_length (w v : Nat) : (toHexFixed w v).length = w := by
  induction w generalizing v with
  | zero => rfl
  | succ n ih =>
    show (toHexFixed n (v / 16) ++ String.singleton (hexChar (v % 16))).length = n + 1
    rw [String.length_append, ih]
    rfl

theorem generateHash_length (q : String) (algo : HashAlgorithm) :
    (generateHash q algo).length = hexDigestLength algo := by
  unfold generateHash
  exact toHexFixed_length _ _

theorem hexDigestLength_pos (algo : HashAlgorithm) : 0 < hexDigestLength algo := by
  cases algo <;> decide

theorem generateHash_ne_empty (q : String) (algo : HashAlgorithm) :
    generateHash q algo ≠ "" := by
  intro h
  have hl := generateHash_length q algo
  rw [h] at hl
  have := hexDigestLength_pos algo
  simp [String.length] at hl
  omega

/-!
## Helper lemmas: the negotiation branches
-/

theorem negotiate_verify_mismatch (ev : Nat) (algo : HashAlgorithm) (wtc : Bool)
    (parseFn : String → DocumentNode) (store : LRUCache) (now : Nat)
    (pq : PersistedQuery) (source : Source) (q : String)
    (hv : versionMismatch pq.version ev = false)
    (hq : sourceQuery source = some q)
    (hne : pq.hash ≠ some (generateHash q algo)) :
    negotiate ev algo wtc parseFn store now (some pq) source =
      { result := .error (errorHashMismatch algo), store := store } := by
  simp only [negotiate, hq, hv, Bool.false_eq_true, if_false]
  rw [if_pos]
  simp [bne_iff_ne, hne]

theorem negotiate_verify_match (ev : Nat) (algo : HashAlgorithm) (wtc : Bool)
    (parseFn : String → DocumentNode) (store : LRUCache) (now : Nat)
    (pq : PersistedQuery) (source : Source) (q : String)
    (hv : versionMismatch pq.version ev = false)
    (hq : sourceQuery source = some q)
    (heq : pq.hash = some (generateHash q algo)) :
    negotiate ev algo wtc parseFn store now (some pq) source =
      { result := .ok { setDoc := none, ctxWrite := none, afterFn := some pq.hash },
        store := store } := by
  simp only [negotiate, hq, hv, Bool.false_eq_true, if_false]
  rw [if_neg]
  simp [bne_iff_ne, heq]

/-- A parse function shared by the concrete witnesses below. -/
def constParseFn : String → DocumentNode := fun _ => { id := 0 }

/-- C1: with a descriptor of acceptable version and query text supplied, a
hash differing from the recomputed one fails with `HASH_MISMATCH` (for any
store contents, which are untouched), and an equal hash resolves with the
supplied query text (no document is substituted, the after-parse callback
carries the hash). -/
theorem c1_verify_hash_check (ev : Nat) (algo : HashAlgorithm) (wtc : Bool)
    (parseFn : String → DocumentNode) (store : LRUCache) (now : Nat)
    (pq : PersistedQuery) (source : Source) (q : String)
    (hv : versionMismatch pq.version ev = false)
    (hq : sourceQuery source = some q) :
    (pq.hash ≠ some (generateHash q algo) →
      negotiate ev algo wtc parseFn store now (some pq) source =
        { result := .error (errorHashMismatch algo), store := store }) ∧
    (pq.hash = some (generateHash q algo) →
      negotiate ev algo wtc parseFn store now (some pq) source =
        { result := .ok { setDoc := none, ctxWrite := none, afterFn := some pq.hash },
          store := store }) :=
  ⟨negotiate_verify_mismatch ev algo wtc parseFn store now pq source q hv hq,
   negotiate_verify_match ev algo wtc parseFn store now pq source q hv hq⟩

theorem c1_verify_hash_check_witness :
    negotiate 1 .sha256 true constParseFn (createLRUStore none none) 0
      (some { version := some 1, hash := some "x" }) (.str "q") =
      { result := .error (errorHashMismatch .sha256), store := createLRUStore none none } :=
  (c1_verify_hash_check 1 .sha256 true constParseFn (createLRUStore none none) 0
      { version := some 1, hash := some "x" } (.str "q") "q" (by decide) rfl).1 (by decide)

/-- C10: with query text present, a falsy descriptor hash (absent or empty)
fails with `HASH_MISMATCH`, not `HASH_MISSING`: the `HASH_MISSING` check
lives in the no-query branch, and the recomputed hex digest is a nonempty
string, so a falsy hash can never equal it. -/
theorem c10_falsy_hash_with_query (ev : Nat) (algo : HashAlgorithm) (wtc : Bool)
    (parseFn : String → DocumentNode) (store : LRUCache) (now : Nat)
    (pq : PersistedQuery) (source : Source) (q : String)
    (hv : versionMismatch pq.version ev = false)
    (hq : sourceQuery source = some q)
    (hh : pq.hash = none ∨ pq.hash = some "") :
    negotiate ev algo wtc parseFn store now (some pq) source =
      { result := .error (errorHashMismatch algo), store := store } := by
  have hne : pq.hash ≠ some (generateHash q algo) := by
    rcases hh with h | h <;> rw [h]
    · exact fun hc => Option.noConfusion hc
    · intro hc
      exact generateHash_ne_empty q algo (Option.some.injEq .. ▸ hc).symm
  exact negotiate_verify_mismatch ev algo wtc parseFn store now pq source q hv hq hne

theorem c10_falsy_hash_with_query_witness :
    negotiate 1 .sha256 true constParseFn (createLRUStore none none) 0
      (some { version := some 1, hash := some "" }) (.str "q") =
      { result := .error (errorHashMismatch .sha256), store := createLRUStore none none } :=
  c10_falsy_hash_with_query 1 .sha256 true constParseFn (createLRUStore none none) 0
    { version := some 1, hash := some "" } (.str "q") "q" (by decide) rfl (Or.inr rfl)

/-- C7: the default extractor yields no descriptor — and no error — when the
`persistedQuery` extension object is absent; when it is present with a
non-number `version` and no `{algorithm}Hash` field it raises the
`NOT_FOUND`-class error. -/
theorem c7_default_extractor (algo : HashAlgorithm) (ext : PersistedQueryExtension) :
    (getPersistedQueryFromContext { persistedQueryExt := none } algo = .ok none) ∧
    (ext.version.isNumber = false → ext.hashField algo = none →
      getPersistedQueryFromContext { persistedQueryExt := some ext } algo = .error errorNotFound) := by
  refine ⟨rfl, fun hnum hfield => ?_⟩
  simp [getPersistedQueryFromContext, hnum, hfield]

theorem c7_default_extractor_witness :
    getPersistedQueryFromContext
      { persistedQueryExt := some { version := .nonNumber, hashField := fun _ => none } } .sha256 =
      .error errorNotFound :=
  (c7_default_extractor .sha256 { version := .nonNumber, hashField := fun _ => none }).2 rfl rfl

/-!
## Helper lemmas: the store
-/

theorem dropLast_cons_ne_nil {α : Type} (a : α) {l : List α} (h : l ≠ []) :
    (a :: l).dropLast = a :: l.dropLast := by
  cases l with
  | nil => exact absurd rfl h
  | cons b t => exact List.dropLast_cons₂ ..

/-- The three possible shapes of the store after a `get`: untouched (miss),
with the expired entry removed, or with the found entry moved to the front
of the recency order. -/
theorem get_entries_cases (c : LRUCache) (now : Nat) (h : String) :
    (c.get now h).2.entries = c.entries ∨
    (c.get now h).2.entries = c.entries.filter (fun x => x.key != h) ∨
    (∃ e, c.entries.find? (fun x => x.key == h) = some e ∧
      (c.get now h).2.entries =
        { e with lastAccessedAt := now } :: c.entries.filter (fun x => x.key != h)) := by
  unfold LRUCache.get
  cases hfind : c.entries.find? (fun x => x.key == h) with
  | none => exact Or.inl rfl
  | some e =>
    by_cases hx : e.insertedAt + c.ttl < now
    · exact Or.inr (Or.inl (by simp [hx]))
    · exact Or.inr (Or.inr ⟨e, rfl, by simp [hx]⟩)

theorem get_maxSize (c : LRUCache) (now : Nat) (h : String) :
    (c.get now h).2.maxSize = c.maxSize := by
  unfold LRUCache.get
  cases hfind : c.entries.find? (fun x => x.key == h) with
  | none => rfl
  | some e => by_cases hx : e.insertedAt + c.ttl < now <;> simp [hx]

theorem get_ttl (c : LRUCache) (now : Nat) (h : String) :
    (c.get now h).2.ttl = c.ttl := by
  unfold LRUCache.get
  cases hfind : c.entries.find? (fun x => x.key == h) with
  | none => rfl
  | some e => by_cases hx : e.insertedAt + c.ttl < now <;> simp [hx]

theorem put_maxSize (c : LRUCache) (now : Nat) (h : String) (d : StoredDocument) :
    (c.put now h d).maxSize = c.maxSize := by
  unfold LRUCache.put
  by_cases hb : (c.entries.filter (fun x => x.key != h)).length + 1 > c.maxSize <;> simp [hb]

theorem put_ttl (c : LRUCache) (now : Nat) (h : String) (d : StoredDocument) :
    (c.put now h d).ttl = c.ttl := by
  unfold LRUCache.put
  by_cases hb : (c.entries.filter (fun x => x.key != h)).length + 1 > c.maxSize <;> simp [hb]

theorem runOps_maxSize (ops : List StoreOp) (c : LRUCache) :
    (runOps c ops).maxSize = c.maxSize := by
  induction ops generalizing c with
  | nil => rfl
  | cons op t ih =>
    show (runOps (runOp c op) t).maxSize = c.maxSize
    rw [ih]
    cases op with
    | get now h => exact get_maxSize c now h
    | put now h d => exact put_maxSize c now h d

theorem runOps_ttl (ops : List StoreOp) (c : LRUCache) :
    (runOps c ops).ttl = c.ttl := by
  induction ops generalizing c with
  | nil => rfl
  | cons op t ih =>
    show (runOps (runOp c op) t).ttl = c.ttl
    rw [ih]
    cases op with
    | get now h => exact get_ttl c now h
    | put now h d => exact put_ttl c now h d

/-- Removing all entries with the found key strictly shrinks the list. -/
theorem length_filter_key_lt {l : List CacheEntry} {e : CacheEntry} {h : String}
    (he : e ∈ l) (hk : e.key = h) :
    (l.filter (fun x => x.key != h)).length < l.length := by
  induction l with
  | nil => cases he
  | cons a t ih =>
    rcases List.mem_cons.mp he with heq | ht
    · have hak : a.key = h := by rw [← heq]; exact hk
      have hp : (a.key != h) = false := by simp [bne_iff_ne, hak]
      simp only [List.filter_cons, hp, Bool.false_eq_true, if_false, List.length_cons]
      exact Nat.lt_succ_of_le (List.length_filter_le _ _)
    · by_cases hp : (a.key != h) = true
      · simp only [List.filter_cons, hp, if_true, List.length_cons]
        exact Nat.succ_lt_succ (ih ht)
      · have hp' : (a.key != h) = false := by
          revert hp; cases (a.key != h) <;> simp
        simp only [List.filter_cons, hp', Bool.false_eq_true, if_false, List.length_cons]
        exact Nat.lt_succ_of_le (Nat.le_of_lt (ih ht))

/-- The entry found under `h` has key `h`. -/
theorem find_key_eq {c : LRUCache} {h : String} {e : CacheEntry}
    (hfind : c.entries.find? (fun x => x.key == h) = some e) : e.key = h := by
  have hp := List.find?_some hfind
  simpa using hp

theorem keys_filter_nodup {c : LRUCache} (hn : c.keys.Nodup) (h : String) :
    ((c.entries.filter (fun x => x.key != h)).map (fun e => e.key)).Nodup :=
  List.Nodup.sublist (List.Sublist.map _ (List.filter_sublist c.entries)) hn

theorem not_mem_keys_filter (c : LRUCache) (h : String) :
    h ∉ (c.entries.filter (fun x => x.key != h)).map (fun e => e.key) := by
  intro hmem
  obtain ⟨x, hx, hxk⟩ := List.mem_map.mp hmem
  have := (List.mem_filter.mp hx).2
  rw [bne_iff_ne] at this
  exact this hxk

/-- Operation `get` preserves well-formedness. -/
theorem WF_get (c : LRUCache) (now : Nat) (h : String) (hwf : c.WF) :
    ((c.get now h).2).WF := by
  obtain ⟨hnodup, hlen⟩ := hwf
  constructor
  · show ((c.get now h).2.entries.map (fun e => e.key)).Nodup
    rcases get_entries_cases c now h with he | he | ⟨e, hfind, he⟩
    · rw [he]; exact hnodup
    · rw [he]; exact keys_filter_nodup hnodup h
    · rw [he]
      have hk : e.key = h := find_key_eq hfind
      refine List.nodup_cons.mpr ⟨?_, keys_filter_nodup hnodup h⟩
      show e.key ∉ _
      rw [hk]
      exact not_mem_keys_filter c h
  · rw [get_maxSize]
    rcases get_entries_cases c now h with he | he | ⟨e, hfind, he⟩
    · rw [he]; exact hlen
    · rw [he]; exact Nat.le_trans (List.length_filter_le _ _) hlen
    · rw [he]
      have hk : e.key = h := find_key_eq hfind
      have hlt := length_filter_key_lt (List.mem_of_find?_eq_some hfind) hk
      simp only [List.length_cons]
      omega

/-- Operation `put` preserves well-formedness (the eviction keeps the count within
capacity). -/
theorem WF_put (c : LRUCache) (now : Nat) (h : String) (d : StoredDocument) (hwf : c.WF) :
    (c.put now h d).WF := by
  obtain ⟨hnodup, hlen⟩ := hwf
  have hfreshkeys :
      (({ key := h, value := d, insertedAt := now, lastAccessedAt := now } :
          CacheEntry) :: c.entries.filter (fun x => x.key != h)).map (fun e => e.key) =
        h :: (c.entries.filter (fun x => x.key != h)).map (fun e => e.key) := by
    simp
  have hconsnodup :
      ((({ key := h, value := d, insertedAt := now, lastAccessedAt := now } :
          CacheEntry) :: c.entries.filter (fun x => x.key != h)).map (fun e => e.key)).Nodup := by
    rw [hfreshkeys]
    exact List.nodup_cons.mpr ⟨not_mem_keys_filter c h, keys_filter_nodup hnodup h⟩
  unfold LRUCache.put
  by_cases hb : (c.entries.filter (fun x => x.key != h)).length + 1 > c.maxSize
  · simp only [hb, if_true]
    constructor
    · show ((_ : List CacheEntry).dropLast.map _).Nodup
      exact List.Nodup.sublist (List.Sublist.map _ (List.dropLast_sublist _)) hconsnodup
    · show (_ : List CacheEntry).dropLast.length ≤ _
      rw [List.length_dropLast]
      simp only [List.length_cons]
      have := List.length_filter_le (fun x => x.key != h) c.entries
      omega
  · simp only [hb, if_false]
    constructor
    · exact hconsnodup
    · simp only [List.length_cons]
      omega

theorem WF_createLRUStore (maxSize ttl : Option Nat) : (createLRUStore maxSize ttl).WF := by
  constructor
  · exact List.nodup_nil
  · exact Nat.zero_le _

theorem WF_runOps (ops : List StoreOp) (c : LRUCache) (hwf : c.WF) : (runOps c ops).WF := by
  induction ops generalizing c with
  | nil => exact hwf
  | cons op t ih =>
    show (runOps (runOp c op) t).WF
    cases op with
    | get now h => exact ih _ (WF_get c now h hwf)
    | put now h d => exact ih _ (WF_put c now h d hwf)

/-- Operation `get` never returns an entry past its TTL (measured from insertion);
what it returns is the stored value of a live entry with the requested key. -/
theorem get_no_expired (c : LRUCache) (now : Nat) (h : String) (v : StoredDocument)
    (hg : (c.get now h).1 = some v) :
    ∃ e ∈ c.entries, e.key = h ∧ now ≤ e.insertedAt + c.ttl ∧ e.value = v := by
  unfold LRUCache.get at hg
  cases hfind : c.entries.find? (fun x => x.key == h) with
  | none => rw [hfind] at hg; cases hg
  | some e =>
    rw [hfind] at hg
    by_cases hx : e.insertedAt + c.ttl < now
    · simp [hx] at hg
    · simp only [hx, if_false] at hg
      refine ⟨e, List.mem_of_find?_eq_some hfind, find_key_eq hfind, ?_, ?_⟩
      · omega
      · exact (Option.some.injEq .. ▸ hg)

/-!
## Helper lemmas: the lookup branch of the negotiation
-/

theorem negotiate_lookup_missing (ev : Nat) (algo : HashAlgorithm) (wtc : Bool)
    (parseFn : String → DocumentNode) (store : LRUCache) (now : Nat)
    (pq : PersistedQuery) (source : Source)
    (hv : versionMismatch pq.version ev = false)
    (hq : sourceQuery source = none)
    (hfalsy : truthyString pq.hash = false) :
    negotiate ev algo wtc parseFn store now (some pq) source =
      { result := .error errorHashMissing, store := store } := by
  cases hh : pq.hash with
  | none => simp [negotiate, hq, hv, hh, truthyString]
  | some qh =>
    have : (qh != "") = false := by rw [hh] at hfalsy; simpa [truthyString] using hfalsy
    simp [negotiate, hq, hv, hh, truthyString, this]

theorem negotiate_lookup_notfound (ev : Nat) (algo : HashAlgorithm) (wtc : Bool)
    (parseFn : String → DocumentNode) (store : LRUCache) (now : Nat)
    (pq : PersistedQuery) (source : Source) (qh : String)
    (hv : versionMismatch pq.version ev = false)
    (hq : sourceQuery source = none)
    (hh : pq.hash = some qh) (hne : qh ≠ "")
    (hmiss : truthyDoc (store.get now qh).1 = false) :
    negotiate ev algo wtc parseFn store now (some pq) source =
      { result := .error errorNotFound, store := (store.get now qh).2 } := by
  rcases hget : store.get now qh with ⟨cq, st1⟩
  rw [hget] at hmiss
  cases cq with
  | none => simp [negotiate, hq, hv, hh, truthyString, bne_iff_ne, hne, hget, truthyDoc]
  | some d =>
    simp only at hmiss
    simp [negotiate, hq, hv, hh, truthyString, bne_iff_ne, hne, hget, hmiss]

theorem negotiate_lookup_hit (ev : Nat) (algo : HashAlgorithm) (wtc : Bool)
    (parseFn : String → DocumentNode) (store : LRUCache) (now : Nat)
    (pq : PersistedQuery) (source : Source) (qh : String) (d : StoredDocument)
    (hv : versionMismatch pq.version ev = false)
    (hq : sourceQuery source = none)
    (hh : pq.hash = some qh) (hne : qh ≠ "")
    (hhit : (store.get now qh).1 = some d)
    (htruthy : truthyDoc (some d) = true) :
    negotiate ev algo wtc parseFn store now (some pq) source =
      { result := .ok
          { setDoc := some (resolveCached parseFn d),
            ctxWrite := if wtc then some source else none,
            afterFn := none },
        store := (store.get now qh).2 } := by
  rcases hget : store.get now qh with ⟨cq, st1⟩
  rw [hget] at hhit
  simp only [Prod.fst] at hhit
  subst hhit
  simp [negotiate, hq, hv, hh, truthyString, bne_iff_ne, hne, hget, htruthy]

/-- A concrete store holding a live (unexpired) entry whose stored document
is the empty string. -/
def emptyTextStore : LRUCache :=
  { maxSize := 1000, ttl := 3600000,
    entries := [{ key := "h", value := .text "", insertedAt := 0, lastAccessedAt := 0 }] }

/-- C5 counterexample: the store holds a live entry for hash `"h"` (its
`get` returns the entry), yet the negotiation for a descriptor referencing
`"h"` with no query text fails with `NOT_FOUND` instead of resolving: the
code tests JavaScript truthiness of the cached value, and the cached raw
text `""` is falsy. -/
theorem c5_counterexample :
    (emptyTextStore.get 0 "h").1 = some (.text "") ∧
    (negotiate 1 .sha256 true constParseFn emptyTextStore 0
        (some { version := some 1, hash := some "h" }) (.obj none)).result =
      .error errorNotFound := by
  exact ⟨rfl, rfl⟩

/-- C5 (amended): with a descriptor of acceptable version and no query
text — a falsy hash fails with `HASH_MISSING`; otherwise, if the store
yields no truthy value for the hash (absent, expired, or a falsy cached
value such as empty raw text) the negotiation fails with `NOT_FOUND`;
if the store yields a truthy value the negotiation resolves with the
cached document. -/
theorem c5_lookup_behaviour (ev : Nat) (algo : HashAlgorithm) (wtc : Bool)
    (parseFn : String → DocumentNode) (store : LRUCache) (now : Nat)
    (pq : PersistedQuery) (source : Source)
    (hv : versionMismatch pq.version ev = false)
    (hq : sourceQuery source = none) :
    (truthyString pq.hash = false →
      negotiate ev algo wtc parseFn store now (some pq) source =
        { result := .error errorHashMissing, store := store }) ∧
    (∀ qh, pq.hash = some qh → qh ≠ "" →
      (truthyDoc (store.get now qh).1 = false →
        negotiate ev algo wtc parseFn store now (some pq) source =
          { result := .error errorNotFound, store := (store.get now qh).2 }) ∧
      (∀ d, (store.get now qh).1 = some d → truthyDoc (some d) = true →
        negotiate ev algo wtc parseFn store now (some pq) source =
          { result := .ok
              { setDoc := some (resolveCached parseFn d),
                ctxWrite := if wtc then some source else none,
                afterFn := none },
            store := (store.get now qh).2 })) := by
  refine ⟨negotiate_lookup_missing ev algo wtc parseFn store now pq source hv hq,
    fun qh hh hne => ⟨?_, fun d hhit htruthy => ?_⟩⟩
  · exact negotiate_lookup_notfound ev algo wtc parseFn store now pq source qh hv hq hh hne
  · exact negotiate_lookup_hit ev algo wtc parseFn store now pq source qh d hv hq hh hne hhit htruthy

/-- A concrete store holding a live parsed document under hash `"h"`. -/
def nodeStore : LRUCache :=
  { maxSize := 1000, ttl := 3600000,
    entries := [{ key := "h", value := .node { id := 5 }, insertedAt := 0, lastAccessedAt := 0 }] }

theorem c5_lookup_behaviour_witness :
    negotiate 1 .sha256 true constParseFn nodeStore 7
      (some { version := some 1, hash := some "h" }) (.obj none) =
      { result := .ok
          { setDoc := some (resolveCached constParseFn (.node { id := 5 })),
            ctxWrite := if true then some (.obj none) else none,
            afterFn := none },
        store := (nodeStore.get 7 "h").2 } :=
  ((c5_lookup_behaviour 1 .sha256 true constParseFn nodeStore 7
      { version := some 1, hash := some "h" } (.obj none) (by decide) rfl).2
    "h" rfl (by decide)).2 (.node { id := 5 }) (by decide) (by decide)

/-- Any negotiation that resolves while query text is present (the Verify
and ComputeHashOnly paths) attaches nothing to the context. -/
theorem negotiate_no_ctxwrite_of_query (ev : Nat) (algo : HashAlgorithm) (wtc : Bool)
    (parseFn : String → DocumentNode) (store : LRUCache) (now : Nat)
    (pqOpt : Option PersistedQuery) (source : Source) (q : String) (ps : ParseSuccess)
    (hq : sourceQuery source = some q)
    (hok : (negotiate ev algo wtc parseFn store now pqOpt source).result = .ok ps) :
    ps.ctxWrite = none := by
  rcases pqOpt with _ | pq
  · by_cases h0 : q = ""
    · simp [negotiate, hq, h0] at hok
    · simp [negotiate, hq, bne_iff_ne, h0] at hok
      subst hok
      rfl
  · cases hv : versionMismatch pq.version ev with
    | true => simp [negotiate, hq, hv] at hok
    | false =>
      by_cases hcm : pq.hash = some (generateHash q algo)
      · rw [negotiate_verify_match ev algo wtc parseFn store now pq source q hv hq hcm] at hok
        simp at hok
        subst hok
        rfl
      · rw [negotiate_verify_mismatch ev algo wtc parseFn store now pq source q hv hq hcm] at hok
        simp at hok

/-- C9 counterexample: with `writeToContext` left at its default (true), a
negotiation that resolves via supplied query text (the Verify path) attaches
nothing to the context: `ctxWrite = none`, contradicting the claim that
every resolution attaches the resolved hash/descriptor. -/
theorem c9_counterexample :
    (negotiate 1 .sha256 true constParseFn (createLRUStore none none) 0
        (some { version := some 1, hash := some (generateHash "q" .sha256) })
        (.str "q")).result =
      .ok { setDoc := none, ctxWrite := none, afterFn := some (some (generateHash "q" .sha256)) } := by
  rfl

/-- C9 (amended): context attachment happens only on the cache-hit path.
When `writeToContext` is true (the default) and the negotiation resolves
via the store (descriptor, no query text, truthy store hit), the original
parse source — not the hash — is attached to the context under the plugin's
reserved key; with `writeToContext` false nothing is attached; and any
resolution carrying query text attaches nothing. -/
theorem c9_write_to_context (ev : Nat) (algo : HashAlgorithm)
    (parseFn : String → DocumentNode) (store : LRUCache) (now : Nat)
    (pq : PersistedQuery) (source : Source) (qh : String) (d : StoredDocument)
    (hv : versionMismatch pq.version ev = false)
    (hq : sourceQuery source = none)
    (hh : pq.hash = some qh) (hne : qh ≠ "")
    (hhit : (store.get now qh).1 = some d)
    (htruthy : truthyDoc (some d) = true) :
    ((negotiate ev algo true parseFn store now (some pq) source).result =
      .ok { setDoc := some (resolveCached parseFn d), ctxWrite := some source, afterFn := none }) ∧
    ((negotiate ev algo false parseFn store now (some pq) source).result =
      .ok { setDoc := some (resolveCached parseFn d), ctxWrite := none, afterFn := none }) ∧
    (∀ (wtc : Bool) (pqOpt : Option PersistedQuery) (source2 : Source) (q2 : String)
        (ps : ParseSuccess),
      sourceQuery source2 = some q2 →
      (negotiate ev algo wtc parseFn store now pqOpt source2).result = .ok ps →
      ps.ctxWrite = none) := by
  refine ⟨?_, ?_, ?_⟩
  · rw [negotiate_lookup_hit ev algo true parseFn store now pq source qh d hv hq hh hne hhit htruthy]
    rfl
  · rw [negotiate_lookup_hit ev algo false parseFn store now pq source qh d hv hq hh hne hhit htruthy]
    rfl
  · exact fun wtc pqOpt source2 q2 ps hq2 hok =>
      negotiate_no_ctxwrite_of_query ev algo wtc parseFn store now pqOpt source2 q2 ps hq2 hok

theorem c9_write_to_context_witness :
    (negotiate 1 .sha256 true constParseFn nodeStore 7
        (some { version := some 1, hash := some "h" }) (.obj none)).result =
      .ok { setDoc := some (resolveCached constParseFn (.node { id := 5 })),
            ctxWrite := some (.obj none), afterFn := none } :=
  (c9_write_to_context 1 .sha256 constParseFn nodeStore 7
      { version := some 1, hash := some "h" } (.obj none) "h" (.node { id := 5 })
      (by decide) rfl rfl (by decide) (by decide) (by decide)).1

/-!
## Version handling (C2, C3)
-/

/-- A concrete request whose `persistedQuery` extension carries a hash but
no `version` field. -/
def ctxAbsentVersion : RequestContext :=
  { persistedQueryExt := some { version := .absent, hashField := fun _ => some "abc" } }

/-- C2 counterexample: a request whose wire extension has no `version`
field (with default configuration) does not pass the version check — the
default extractor coerces the absent version to `0` (`pq.version ?? 0`),
and `0` is a defined number different from the expected version `1`, so
negotiation fails with `INVALID_VERSION` instead of proceeding to the
query-presence step. -/
theorem c2_counterexample :
    (onParse {} constParseFn (createLRUStore none none) 0 ctxAbsentVersion (.str "q")).result =
      .error errorInvalidVersion := by
  rfl

/-- C2 (amended): in the negotiation itself, only a runtime version value
that is a number is checked: a non-number version (e.g. supplied by a
custom resolver as `undefined`) behaves exactly like a matching version and
proceeds to the query-presence step, and a defined (numeric) version
different from the expected one fails with `INVALID_VERSION`.  However the
default extractor coerces a wire extension with an absent `version` field
to version `0`, so such a request fails with `INVALID_VERSION` whenever the
configured expected version is not `0`. -/
theorem c2_version_check (ev : Nat) (algo : HashAlgorithm) (wtc : Bool)
    (parseFn : String → DocumentNode) (store : LRUCache) (now : Nat) :
    (∀ (h : Option String) (source : Source),
      negotiate ev algo wtc parseFn store now (some { version := none, hash := h }) source =
        negotiate ev algo wtc parseFn store now (some { version := some ev, hash := h }) source) ∧
    (∀ (pq : PersistedQuery) (source : Source), versionMismatch pq.version ev = true →
      negotiate ev algo wtc parseFn store now (some pq) source =
        { result := .error errorInvalidVersion, store := store }) ∧
    (∀ (o : UseAPQOptions) (ext : PersistedQueryExtension) (source : Source) (s : String),
      o.resolvePersistedQuery = none →
      resolveExpectedVersion o ≠ 0 →
      ext.version = .absent →
      ext.hashField (resolveHashAlgorithm o) = some s →
      onParse o parseFn store now { persistedQueryExt := some ext } source =
        { result := .error errorInvalidVersion, store := store }) := by
  refine ⟨fun h source => ?_, fun pq source hv => ?_, fun o ext source s hres hev hver hfield => ?_⟩
  · simp [negotiate, versionMismatch]
  · simp [negotiate, hv]
  · have hextract :
        getPersistedQueryFromContext { persistedQueryExt := some ext } (resolveHashAlgorithm o) =
          .ok (some { hash := some s, version := some 0 }) := by
      simp [getPersistedQueryFromContext, hver, hfield, WireVersion.isNumber]
    have hmm : versionMismatch (some 0) (resolveExpectedVersion o) = true := by
      simp [versionMismatch, bne_iff_ne]
      exact fun hc => hev hc.symm
    simp [onParse, hres, hextract, negotiate, hmm]

theorem c2_version_check_witness :
    onParse {} constParseFn (createLRUStore none none) 3
      { persistedQueryExt := some { version := .absent, hashField := fun _ => some "dd" } }
      (.obj none) =
      { result := .error errorInvalidVersion, store := createLRUStore none none } :=
  (c2_version_check 1 .sha256 true constParseFn (createLRUStore none none) 3).2.2
    {} { version := .absent, hashField := fun _ => some "dd" } (.obj none) "dd"
    rfl (by decide) rfl rfl

/-- C3 counterexample: configuring the plugin with `version: undefined`
does not disable version enforcement — a descriptor with version `2` still
fails with `INVALID_VERSION`, because the destructuring default replaces
the `undefined` option with the default protocol version `1`. -/
theorem c3_counterexample :
    (onParse
        { version := none,
          resolvePersistedQuery :=
            some (fun _ => some { version := some 2, hash := some "h" }) }
        constParseFn (createLRUStore none none) 0 { persistedQueryExt := none }
        (.obj none)).result =
      .error errorInvalidVersion := by
  rfl

/-- C3 (amended): configuring `version` as `undefined` selects the default
expected protocol version `1` (a destructuring default), so enforcement is
never disabled: the plugin behaves exactly as if configured with version
`1`, and a defined descriptor version different from `1` fails with
`INVALID_VERSION`. -/
theorem c3_version_undefined (o : UseAPQOptions) (ho : o.version = none) :
    (resolveExpectedVersion o = DEFAULT_PROTOCOL_VERSION) ∧
    (∀ (parseFn : String → DocumentNode) (store : LRUCache) (now : Nat)
        (ctx : RequestContext) (source : Source),
      onParse o parseFn store now ctx source =
        onParse { o with version := some DEFAULT_PROTOCOL_VERSION } parseFn store now ctx source) ∧
    (∀ (algo : HashAlgorithm) (wtc : Bool) (parseFn : String → DocumentNode)
        (store : LRUCache) (now : Nat) (v : Nat) (h : Option String) (source : Source),
      v ≠ DEFAULT_PROTOCOL_VERSION →
      negotiate (resolveExpectedVersion o) algo wtc parseFn store now
        (some { version := some v, hash := h }) source =
        { result := .error errorInvalidVersion, store := store }) := by
  refine ⟨by simp [resolveExpectedVersion, ho], fun parseFn store now ctx source => ?_,
    fun algo wtc parseFn store now v h source hne => ?_⟩
  · simp [onParse, resolveExpectedVersion, resolveHashAlgorithm, resolveWriteToContext, ho]
  · have hmm : versionMismatch (some v) (resolveExpectedVersion o) = true := by
      simp [versionMismatch, resolveExpectedVersion, ho, bne_iff_ne]
      simpa [DEFAULT_PROTOCOL_VERSION] using hne
    simp [negotiate, hmm]

theorem c3_version_undefined_witness :
    negotiate (resolveExpectedVersion { version := none }) .sha256 true constParseFn
      (createLRUStore none none) 0 (some { version := some 2, hash := some "h" })
      (.obj none) =
      { result := .error errorInvalidVersion, store := createLRUStore none none } :=
  (c3_version_undefined { version := none } rfl).2.2 .sha256 true constParseFn
    (createLRUStore none none) 0 2 (some "h") (.obj none) (by decide)

/-!
## No store write on failure (C4)
-/

/-- Every entry of the store after a `get` originates from the store before
it: `get` never adds an entry or changes a stored document (it only removes
expired entries and refreshes recency metadata). -/
theorem get_entries_preserved (c : LRUCache) (now : Nat) (h : String) :
    ∀ x ∈ (c.get now h).2.entries, ∃ y ∈ c.entries,
      y.key = x.key ∧ y.value = x.value ∧ y.insertedAt = x.insertedAt := by
  intro x hx
  rcases get_entries_cases c now h with he | he | ⟨e, hfind, he⟩
  · rw [he] at hx
    exact ⟨x, hx, rfl, rfl, rfl⟩
  · rw [he] at hx
    exact ⟨x, List.mem_of_mem_filter hx, rfl, rfl, rfl⟩
  · rw [he] at hx
    rcases List.mem_cons.mp hx with heq | ht
    · exact ⟨e, List.mem_of_find?_eq_some hfind, by rw [heq], by rw [heq], by rw [heq]⟩
    · exact ⟨x, List.mem_of_mem_filter ht, rfl, rfl, rfl⟩

/-- The store coming out of a negotiation is either untouched or the result
of a single `get` on it; a negotiation never `put`s. -/
theorem negotiate_store_source (ev : Nat) (algo : HashAlgorithm) (wtc : Bool)
    (parseFn : String → DocumentNode) (store : LRUCache) (now : Nat)
    (pqOpt : Option PersistedQuery) (source : Source) :
    (negotiate ev algo wtc parseFn store now pqOpt source).store = store ∨
    ∃ qh, (negotiate ev algo wtc parseFn store now pqOpt source).store =
      (store.get now qh).2 := by
  rcases pqOpt with _ | pq
  · cases hsq : sourceQuery source with
    | some q => by_cases h0 : q = "" <;> simp [negotiate, hsq, h0]
    | none => simp [negotiate, hsq]
  · cases hv : versionMismatch pq.version ev with
    | true => simp [negotiate, hv]
    | false =>
      cases hsq : sourceQuery source with
      | some q =>
        by_cases hcm : pq.hash = some (generateHash q algo)
        · rw [negotiate_verify_match ev algo wtc parseFn store now pq source q hv hsq hcm]
          exact Or.inl rfl
        · rw [negotiate_verify_mismatch ev algo wtc parseFn store now pq source q hv hsq hcm]
          exact Or.inl rfl
      | none =>
        cases hh : pq.hash with
        | none =>
          rw [negotiate_lookup_missing ev algo wtc parseFn store now pq source hv hsq
            (by simp [hh, truthyString])]
          exact Or.inl rfl
        | some qh =>
          by_cases h0 : qh = ""
          · rw [negotiate_lookup_missing ev algo wtc parseFn store now pq source hv hsq
              (by simp [hh, h0, truthyString])]
            exact Or.inl rfl
          · cases htr : truthyDoc (store.get now qh).1 with
            | false =>
              rw [negotiate_lookup_notfound ev algo wtc parseFn store now pq source qh hv hsq
                hh h0 htr]
              exact Or.inr ⟨qh, rfl⟩
            | true =>
              cases hget1 : (store.get now qh).1 with
              | none => rw [hget1] at htr; simp [truthyDoc] at htr
              | some d =>
                rw [negotiate_lookup_hit ev algo wtc parseFn store now pq source qh d hv hsq
                  hh h0 hget1 (by rw [hget1] at htr; exact htr)]
                exact Or.inr ⟨qh, rfl⟩

theorem negotiate_no_new_entries (ev : Nat) (algo : HashAlgorithm) (wtc : Bool)
    (parseFn : String → DocumentNode) (store : LRUCache) (now : Nat)
    (pqOpt : Option PersistedQuery) (source : Source) :
    ∀ x ∈ (negotiate ev algo wtc parseFn store now pqOpt source).store.entries,
      ∃ y ∈ store.entries, y.key = x.key ∧ y.value = x.value ∧ y.insertedAt = x.insertedAt := by
  rcases negotiate_store_source ev algo wtc parseFn store now pqOpt source with hs | ⟨qh, hs⟩
  · rw [hs]
    exact fun x hx => ⟨x, hx, rfl, rfl, rfl⟩
  · rw [hs]
    exact get_entries_preserved store now qh

theorem onParse_no_new_entries (options : UseAPQOptions) (parseFn : String → DocumentNode)
    (store : LRUCache) (now : Nat) (ctx : RequestContext) (source : Source) :
    ∀ x ∈ (onParse options parseFn store now ctx source).store.entries,
      ∃ y ∈ store.entries, y.key = x.key ∧ y.value = x.value ∧ y.insertedAt = x.insertedAt := by
  cases hres : options.resolvePersistedQuery with
  | some f =>
    simp only [onParse, hres]
    exact negotiate_no_new_entries _ _ _ parseFn store now _ source
  | none =>
    cases hex : getPersistedQueryFromContext ctx (resolveHashAlgorithm options) with
    | error e =>
      simp only [onParse, hres, hex]
      exact fun x hx => ⟨x, hx, rfl, rfl, rfl⟩
    | ok pq =>
      simp only [onParse, hres, hex]
      exact negotiate_no_new_entries _ _ _ parseFn store now _ source

/-- A concrete store holding an entry inserted at time 0 that is expired by
time 3600001. -/
def expiredStore : LRUCache :=
  { maxSize := 1000, ttl := 3600000,
    entries := [{ key := "h", value := .node { id := 1 }, insertedAt := 0, lastAccessedAt := 0 }] }

/-- C4 counterexample: on a Fail path the store is not always literally
unchanged — a lookup that finds only an expired entry fails with
`NOT_FOUND` *and* lazily removes the expired entry, so the store after the
failure differs from the store before it. -/
theorem c4_counterexample :
    (negotiate 1 .sha256 true constParseFn expiredStore 3600001
        (some { version := some 1, hash := some "h" }) (.obj none)).result =
      .error errorNotFound ∧
    (negotiate 1 .sha256 true constParseFn expiredStore 3600001
        (some { version := some 1, hash := some "h" }) (.obj none)).store ≠ expiredStore := by
  exact ⟨rfl, by decide⟩

/-- C4 (amended): a `put` happens only in the after-parse callback and only
on successful results.  On every Fail path of the negotiation no `put`
occurs: every entry of the store after a failed `onParse` originates from
the store before it (same key, document and insertion time) — nothing is
cached — although a failing lookup may still lazily drop expired entries
and refresh recency metadata, so the store is not always literally
unchanged.  The callback leaves the store untouched on an `Error` or
nullish result, and performs exactly `put(hash, document)` on a successful
one. -/
theorem c4_put_only_on_success :
    (∀ (options : UseAPQOptions) (parseFn : String → DocumentNode) (store : LRUCache)
        (now : Nat) (ctx : RequestContext) (source : Source) (e : PQError),
      (onParse options parseFn store now ctx source).result = .error e →
      ∀ x ∈ (onParse options parseFn store now ctx source).store.entries,
        ∃ y ∈ store.entries, y.key = x.key ∧ y.value = x.value ∧ y.insertedAt = x.insertedAt) ∧
    (∀ (qh : Option String) (now : Nat) (store : LRUCache),
      runAfterFn qh now store .errorResult = store ∧
      runAfterFn qh now store .nullish = store) ∧
    (∀ (qh : String) (now : Nat) (store : LRUCache) (d : DocumentNode), qh ≠ "" →
      runAfterFn (some qh) now store (.ok d) = store.put now qh (.node d)) := by
  refine ⟨?_, fun qh now store => ⟨rfl, rfl⟩, fun qh now store d hne => ?_⟩
  · intro options parseFn store now ctx source e _he
    exact onParse_no_new_entries options parseFn store now ctx source
  · simp [runAfterFn, bne_iff_ne, hne]

theorem c4_put_only_on_success_witness :
    runAfterFn (some "a") 0 (createLRUStore none none) (.ok { id := 1 }) =
      (createLRUStore none none).put 0 "a" (.node { id := 1 }) :=
  c4_put_only_on_success.2.2 "a" 0 (createLRUStore none none) { id := 1 } (by decide)

/-!
## Eviction behaviour of `put` (C6)
-/

/-- The keys that a transition from `c` to `c2` lost, other than the key
`h` being written: these are the evicted keys of a `put` of `h`. -/
def evictedKeys (c c2 : LRUCache) (h : String) : List String :=
  c.keys.filter (fun k => decide (k ≠ h ∧ k ∉ c2.keys))

theorem mem_evictedKeys {c c2 : LRUCache} {h k : String} :
    k ∈ evictedKeys c c2 h ↔ k ∈ c.keys ∧ k ≠ h ∧ k ∉ c2.keys := by
  simp [evictedKeys, List.mem_filter]

/-- A key of `c` other than `h` is a key of the filtered remainder used by
`put`. -/
theorem mem_keys_rest {c : LRUCache} {k h : String} (hk : k ∈ c.keys) (hne : k ≠ h) :
    k ∈ (c.entries.filter (fun x => x.key != h)).map (fun e => e.key) := by
  obtain ⟨e, he, hek⟩ := List.mem_map.mp hk
  refine List.mem_map.mpr ⟨e, List.mem_filter.mpr ⟨he, ?_⟩, hek⟩
  rw [hek]
  exact bne_iff_ne.mpr hne

theorem put_entries_no_evict {c : LRUCache} {now : Nat} {h : String} {d : StoredDocument}
    (hb : ¬ (c.entries.filter (fun x => x.key != h)).length + 1 > c.maxSize) :
    (c.put now h d).entries =
      ({ key := h, value := d, insertedAt := now, lastAccessedAt := now } : CacheEntry) ::
        c.entries.filter (fun x => x.key != h) := by
  simp [LRUCache.put, hb]

theorem put_entries_evict {c : LRUCache} {now : Nat} {h : String} {d : StoredDocument}
    (hb : (c.entries.filter (fun x => x.key != h)).length + 1 > c.maxSize) :
    (c.put now h d).entries =
      (({ key := h, value := d, insertedAt := now, lastAccessedAt := now } : CacheEntry) ::
        c.entries.filter (fun x => x.key != h)).dropLast := by
  simp [LRUCache.put, hb]

theorem length_le_one_of_all_eq {l : List String} (hn : l.Nodup) (o : Option String)
    (hall : ∀ x ∈ l, o = some x) : l.length ≤ 1 := by
  cases l with
  | nil => simp
  | cons a t =>
    cases t with
    | nil => simp
    | cons b u =>
      have ha := hall a (by simp)
      have hb := hall b (by simp)
      rw [ha] at hb
      have hab : a = b := by injection hb
      rw [List.nodup_cons] at hn
      exact absurd (hab ▸ List.mem_cons_self b u) hn.1

/-- Every key evicted by a `put` is the key of the least-recently-used
entry: the last element of the recency list once the overwritten key is
removed. -/
theorem put_evicted_is_lru (c : LRUCache) (now : Nat) (h : String) (d : StoredDocument) :
    ∀ k ∈ evictedKeys c (c.put now h d) h,
      (c.entries.filter (fun x => x.key != h)).getLast?.map (fun e => e.key) = some k := by
  intro k hk
  rw [mem_evictedKeys] at hk
  obtain ⟨hkc, hkneh, hknc⟩ := hk
  have hkrest : k ∈ (c.entries.filter (fun x => x.key != h)).map (fun e => e.key) :=
    mem_keys_rest hkc hkneh
  by_cases hb : (c.entries.filter (fun x => x.key != h)).length + 1 > c.maxSize
  · -- eviction branch
    by_cases hrest0 : c.entries.filter (fun x => x.key != h) = []
    · rw [hrest0] at hkrest
      cases hkrest
    · have hdl := dropLast_cons_ne_nil
        ({ key := h, value := d, insertedAt := now, lastAccessedAt := now } : CacheEntry) hrest0
      have hdecomp := List.dropLast_append_getLast hrest0
      rw [← hdecomp, List.map_append, List.mem_append] at hkrest
      rcases hkrest with hin | hlast
      · exfalso
        apply hknc
        show k ∈ (c.put now h d).entries.map (fun e => e.key)
        rw [put_entries_evict hb, hdl, List.map_cons]
        exact List.mem_cons_of_mem _ hin
      · rw [List.getLast?_eq_getLast _ hrest0, Option.map_some']
        simp only [List.map_cons, List.map_nil, List.mem_singleton] at hlast
        rw [hlast]
  · -- no eviction: nothing is lost, contradiction
    exfalso
    apply hknc
    show k ∈ (c.put now h d).entries.map (fun e => e.key)
    rw [put_entries_no_evict hb, List.map_cons]
    exact List.mem_cons_of_mem _ hkrest

/-- A single `put` evicts at most one entry (given distinct keys). -/
theorem put_evicts_at_most_one (c : LRUCache) (now : Nat) (h : String) (d : StoredDocument)
    (hnodup : c.keys.Nodup) :
    (evictedKeys c (c.put now h d) h).length ≤ 1 := by
  refine length_le_one_of_all_eq (List.Nodup.filter _ hnodup)
    ((c.entries.filter (fun x => x.key != h)).getLast?.map (fun e => e.key)) ?_
  exact fun k hk => put_evicted_is_lru c now h d k hk

/-- A `put` below capacity evicts nothing. -/
theorem put_no_evict_below_capacity (c : LRUCache) (now : Nat) (h : String)
    (d : StoredDocument) (hlt : c.entries.length < c.maxSize) :
    evictedKeys c (c.put now h d) h = [] := by
  have hb : ¬ (c.entries.filter (fun x => x.key != h)).length + 1 > c.maxSize := by
    have := List.length_filter_le (fun x => x.key != h) c.entries
    omega
  rw [evictedKeys, List.filter_eq_nil_iff]
  intro k hkc
  simp only [decide_eq_true_eq, not_and, not_not]
  intro hkne
  show k ∈ (c.put now h d).entries.map (fun e => e.key)
  rw [put_entries_no_evict hb, List.map_cons]
  exact List.mem_cons_of_mem _ (mem_keys_rest hkc hkne)

/-- The default store (capacity 1000, TTL 3600000 ms) after an arbitrary
sequence of operations. -/
def defaultStoreAfter (ops : List StoreOp) : LRUCache :=
  runOps (createLRUStore none none) ops

/-- C6: invariants of the default bounded store.  After any sequence of
`get`/`put` operations: the entry count never exceeds the default capacity
1000; `get` never returns an entry older than the default TTL 3600000 ms
measured from insertion; and a single further `put` evicts at most one
entry — none at all if the store is below capacity — and any entry it does
evict is the least-recently-used one (the last of the recency order, the
overwritten key aside). -/
theorem c6_store_invariants (ops : List StoreOp) (now now2 : Nat) (h hp : String)
    (d : StoredDocument) :
    (defaultStoreAfter ops).entries.length ≤ 1000 ∧
    (∀ v, ((defaultStoreAfter ops).get now h).1 = some v →
      ∃ e ∈ (defaultStoreAfter ops).entries,
        e.key = h ∧ now ≤ e.insertedAt + 3600000 ∧ e.value = v) ∧
    (evictedKeys (defaultStoreAfter ops) ((defaultStoreAfter ops).put now2 hp d) hp).length ≤ 1 ∧
    ((defaultStoreAfter ops).entries.length < 1000 →
      evictedKeys (defaultStoreAfter ops) ((defaultStoreAfter ops).put now2 hp d) hp = []) ∧
    (∀ k ∈ evictedKeys (defaultStoreAfter ops) ((defaultStoreAfter ops).put now2 hp d) hp,
      ((defaultStoreAfter ops).entries.filter (fun x => x.key != hp)).getLast?.map
        (fun e => e.key) = some k) := by
  have hwf : (defaultStoreAfter ops).WF := WF_runOps ops _ (WF_createLRUStore none none)
  have hmax : (defaultStoreAfter ops).maxSize = 1000 := (runOps_maxSize ops _).trans rfl
  have httl : (defaultStoreAfter ops).ttl = 3600000 := (runOps_ttl ops _).trans rfl
  refine ⟨?_, ?_, ?_, ?_, ?_⟩
  · have hl := hwf.2
    rw [hmax] at hl
    exact hl
  · intro v hv
    have hg := get_no_expired (defaultStoreAfter ops) now h v hv
    rw [httl] at hg
    exact hg
  · exact put_evicts_at_most_one _ now2 hp d hwf.1
  · intro hlt
    exact put_no_evict_below_capacity _ now2 hp d (by rw [hmax]; exact hlt)
  · exact put_evicted_is_lru _ now2 hp d

theorem c6_store_invariants_witness :
    (defaultStoreAfter [StoreOp.put 0 "a" (.text "x")]).entries.length ≤ 1000 ∧
    evictedKeys (defaultStoreAfter [StoreOp.put 0 "a" (.text "x")])
      ((defaultStoreAfter [StoreOp.put 0 "a" (.text "x")]).put 2 "b" (.text "y")) "b" = [] :=
  ⟨(c6_store_invariants [StoreOp.put 0 "a" (.text "x")] 1 2 "a" "b" (.text "y")).1,
   (c6_store_invariants [StoreOp.put 0 "a" (.text "x")] 1 2 "a" "b" (.text "y")).2.2.2.1
     (by decide)⟩

/-- C8: round trip — a `put(h, d)` followed by a `get(h)` within the TTL
window returns `d` unchanged (whatever form the document has), for any
store of positive capacity: the fresh entry is at the front of the recency
order, so the eviction a full `put` may perform cannot touch it. -/
theorem c8_round_trip (c : LRUCache) (now now2 : Nat) (h : String) (d : StoredDocument)
    (hmax : 0 < c.maxSize) (httl : now2 ≤ now + c.ttl) :
    ((c.put now h d).get now2 h).1 = some d := by
  have httl' : (c.put now h d).ttl = c.ttl := put_ttl c now h d
  have hfind : (c.put now h d).entries.find? (fun e => e.key == h) =
      some { key := h, value := d, insertedAt := now, lastAccessedAt := now } := by
    by_cases hb : (c.entries.filter (fun x => x.key != h)).length + 1 > c.maxSize
    · rw [put_entries_evict hb]
      have hrest0 : c.entries.filter (fun x => x.key != h) ≠ [] := by
        intro h0
        rw [h0] at hb
        simp at hb
        omega
      rw [dropLast_cons_ne_nil _ hrest0]
      exact List.find?_cons_of_pos _ (by simp)
    · rw [put_entries_no_evict hb]
      exact List.find?_cons_of_pos _ (by simp)
  have hexp : ¬ (now + c.ttl < now2) := by omega
  unfold LRUCache.get
  rw [hfind, httl']
  simp [hexp]

theorem c8_round_trip_witness :
    (((createLRUStore none none).put 0 "a" (.text "x")).get 5 "a").1 = some (.text "x") :=
  c8_round_trip (createLRUStore none none) 0 5 "a" (.text "x") (by decide) (by decide)

end Envelop.APQ
